import Mathlib

/-!
kopyaship: include-file generation and the restic command line.

A shallow embedding of `internal/ifile/walk.go` (`Ifile.Walk`, `addIgnoreIfExists`) and of
`backup/provider/restic.go` (`NewRestic`, `Restic.Backup`, `Restic.BackupWithIfile`).

A Go `string` is modelled as the list of its characters (`List Char`).  The texts handled
here are file-system paths; every index the code computes is the length of a prefix, so the
slice `s[n:]` is `List.drop n`.  A slice expression whose bound exceeds the length of the
string stops the Go program, which the model records as `Result.sliceOutOfRange`.
-/

namespace Kopyaship

/-! ## The pieces of the Go standard library used by the code -/

/-- Go `strings.HasPrefix(s, pre)`. -/
def HasPrefix (s pre : List Char) : Bool := pre.isPrefixOf s

/-- Go `strings.HasSuffix(s, suf)`. -/
def HasSuffix (s suf : List Char) : Bool := suf.isSuffixOf s

/-- Go `strings.TrimPrefix(s, pre)`: `s` without the leading `pre`, or `s` itself when it
does not start with `pre`. -/
def TrimPrefix (s pre : List Char) : List Char :=
  if HasPrefix s pre then s.drop pre.length else s

/-- Go `strings.ContainsRune(s, r)`. -/
def ContainsRune (s : List Char) (r : Char) : Bool := s.elem r

/-- Go `os.PathSeparator` (and `filepath.Separator`): a backslash on Windows, a slash on
every other platform. -/
def PathSeparator (runningOnWindows : Bool) : Char :=
  if runningOnWindows then '\\' else '/'

/-- Go `filepath.ToSlash(path)`: the path unchanged when the separator is a slash, and with
every separator replaced by a slash otherwise. -/
def ToSlash (runningOnWindows : Bool) (path : List Char) : List Char :=
  if PathSeparator runningOnWindows = '/' then path
  else path.map fun c => if c = PathSeparator runningOnWindows then '/' else c

/-! ## `utils.StripDriveLetter` -/

/-- Modelled from the spec: `utils.StripDriveLetter` (its file, `utils/misc.go`, is not among
the sources; only `utils/misc_test.go` is).  Section 4.5: "given a path, strip a leading
drive-letter prefix of form `<letter>:` only if the second character is `:`; otherwise return
unchanged.  Preserve the remainder verbatim." -/
def StripDriveLetter : List Char → List Char
  | _ :: ':' :: rest => rest
  | path => path

/-! ## `backup/provider/restic.go` -/

/-- The fields of the Go struct `Restic` that are plain data (`ctx` and `log` carry no
data the command line depends on).  The Go field `sudo` is written `sudo_`, the plain word
being reserved in Lean. -/
structure Restic where
  repoPath : List Char
  extraArgs : List Char
  sudo_ : Bool
  password : List Char
deriving DecidableEq, Repr

/-- Go `NewRestic(ctx, repoPath, extraArgs, password, sudo, log)`. -/
def NewRestic (runningOnWindows : Bool) (repoPath extraArgs password : List Char) (sudo_ : Bool) :
    Restic :=
  { repoPath := ToSlash runningOnWindows repoPath
    extraArgs := extraArgs
    sudo_ := sudo_
    password := password }

/-- Go `(*Restic).Backup(path)`: the value of `command` that the method hands to `r.run`. -/
def Restic.Backup (runningOnWindows : Bool) (r : Restic) (path : List Char) : List Char :=
  let path := ToSlash runningOnWindows path
  let command := "restic -r ".toList ++ r.repoPath ++ " backup".toList
  let command := if r.extraArgs ≠ [] then command ++ " ".toList ++ r.extraArgs else command
  let command := command ++ " ".toList ++ path
  command

/-- Go `(*Restic).BackupWithIfile(ifile)`: the text that the method hands to `r.run`. -/
def Restic.BackupWithIfile (runningOnWindows : Bool) (r : Restic) (ifile : List Char) :
    List Char :=
  let ifile := ToSlash runningOnWindows ifile
  let command := "restic -r ".toList ++ r.repoPath ++ " backup".toList
  let command := if r.extraArgs ≠ [] then command ++ " ".toList ++ r.extraArgs else command
  command ++ " --files-from ".toList ++ ifile

/-! ## `internal/ifile/walk.go`: data -/

/-- What a Go function returning `error` can do: return normally with a value, return a
non-nil error, or stop the program on a slice bound that is out of range. -/
inductive Result (α : Type) where
  | ok : α → Result α
  | error : Result α
  | sliceOutOfRange : Result α
deriving DecidableEq, Repr

/-- Go `Mode`, with its two values `ModeRestic` and `ModeSyncthing`. -/
inductive Mode where
  | ModeRestic
  | ModeSyncthing
deriving DecidableEq, Repr

/-- Go struct `entry`: a path and whether it names a directory. -/
structure entry where
  path : List Char
  isDir : Bool
deriving DecidableEq, Repr

/-- Go struct `ignorefile`: the compiled pattern file, seen through its method `Match`, and
the directory it was loaded from. -/
structure ignorefile where
  p : List Char → Bool
  dir : List Char

/-- A file tree as `filepath.WalkDir` reads it: a regular file with its name and content, or
a directory with its name and its entries in the order `os.ReadDir` returns them (sorted by
file name). -/
inductive Node where
  | file (name : List Char) (content : List Char) : Node
  | dir (name : List Char) (children : List Node) : Node

/-- The name of a node (Go `d.Name()`). -/
def Node.name : Node → List Char
  | .file name _ => name
  | .dir name _ => name

/-- Go `d.Type().IsDir()`. -/
def Node.IsDir : Node → Bool
  | .file _ _ => false
  | .dir _ _ => true

/-- The entries of a directory; a regular file has none. -/
def Node.children : Node → List Node
  | .file _ _ => []
  | .dir _ children => children

/-- Go constant `gitignore`. -/
def gitignore : List Char := ".gitignore".toList

/-- Go constant `kopyatignore`. -/
def kopyatignore : List Char := ".kopyatignore".toList

/-- The value a callback hands back to `filepath.WalkDir` when it does not fail: `nil` or
`filepath.SkipDir`. -/
inductive Signal where
  | nil
  | SkipDir
deriving DecidableEq, Repr

/-- The two variables the closure of `Walk` updates: the slice `ignorefiles` and the slice
`entries`, each with its most recently appended element last. -/
structure WalkState where
  ignorefiles : List ignorefile
  entries : List entry

/-- What is fixed for a walk: the platform, and `pathspec.FromFile` (the library
`go-pathspec`) as a function of the content of the pattern file, `none` being a compilation
error. -/
structure Env where
  runningOnWindows : Bool
  FromFile : List Char → Option (List Char → Bool)

/-! ## `internal/ifile/walk.go`: operations -/

/-- The outcome of `os.Stat(filepath.Join(dir, name))` followed by the test
`f.Mode().Type().IsRegular()`, read off the entries of `dir`: the content of the regular file
`name` in the directory, if there is one. -/
def statRegular (children : List Node) (name : List Char) : Option (List Char) :=
  match children.find? (fun d => d.name == name) with
  | some (.file _ content) => some content
  | _ => none

/-- Go `addIgnoreIfExists(ignorefiles, dir)`, where `children` are the entries of `dir`. -/
def addIgnoreIfExists (env : Env) (ignorefiles : List ignorefile) (dir : List Char)
    (children : List Node) : Result (List ignorefile) :=
  let step (igs : List ignorefile) (name : List Char) : Result (List ignorefile) :=
    match statRegular children name with
    | some content =>
      match env.FromFile content with
      | none => .error
      | some p => .ok (igs ++ [{ p := p, dir := dir }])
    | none => .ok igs
  match step ignorefiles gitignore with
  | .ok igs => step igs kopyatignore
  | r => r

/-- The text handed to the matcher (walk.go lines 58 to 61): the path after the directory of
the ignore file, with a slash appended for a directory that does not already end in one. -/
def trimmed (path dir : List Char) (isDir : Bool) : List Char :=
  let t := path.drop dir.length
  if isDir && !HasSuffix t ['/'] then t ++ ['/'] else t

/-- What lines 57 to 62 of walk.go compute for one ignore file: its directory is a prefix of
the path and its matcher reports a match on the text after that directory. -/
def frameMatches (path : List Char) (isDir : Bool) (igFile : ignorefile) : Bool :=
  HasPrefix path igFile.dir && igFile.p (trimmed path igFile.dir isDir)

/-- How the loop over the ignore files (walk.go lines 54 to 76) is left. -/
inductive LoopExit where
  | returned (s : Signal)
  | broke (path : List Char)
  | outOfRange
  | done
deriving DecidableEq, Repr

/-- The loop `for j := len(ignorefiles) - 1; j >= 0; j--` of the callback, over the ignore
files from the most recently appended one outward (the argument is `ignorefiles` reversed).
`returned` is one of the two `return` statements of Restic mode, `broke p` is the `break` of
Syncthing mode with `path` re-sliced to `p`, and `done` is the loop running to its end with
`anyMatches` still false. -/
def matchLoop (mode : Mode) (root path : List Char) (isDir : Bool) :
    List ignorefile → LoopExit
  | [] => .done
  | igFile :: rest =>
    if HasPrefix path igFile.dir then
      let m := igFile.p (trimmed path igFile.dir isDir)
      if mode = .ModeRestic && m then
        if isDir then .returned .SkipDir else .returned .nil
      else if mode = .ModeSyncthing && m then
        if root.length ≤ path.length then .broke (path.drop root.length) else .outOfRange
      else matchLoop mode root path isDir rest
    else matchLoop mode root path isDir rest

/-- The callback that `Walk` passes to `filepath.WalkDir`, for an entry that was read
without error: `st` holds `ignorefiles` and `entries` before the call, `path` and `d` are
the arguments of the call. -/
def walkFn (env : Env) (mode : Mode) (root : List Char) (st : WalkState) (path : List Char)
    (d : Node) : Result (WalkState × Signal) :=
  if path = root then .ok (st, .nil)
  else
    match (if d.IsDir then addIgnoreIfExists env st.ignorefiles path d.children
           else .ok st.ignorefiles) with
    | .error => .error
    | .sliceOutOfRange => .sliceOutOfRange
    | .ok ignorefiles =>
      match matchLoop mode root path d.IsDir ignorefiles.reverse with
      | .returned s => .ok ({ ignorefiles := ignorefiles, entries := st.entries }, s)
      | .outOfRange => .sliceOutOfRange
      | .done =>
        if mode = .ModeSyncthing then
          .ok ({ ignorefiles := ignorefiles, entries := st.entries }, .nil)
        else
          .ok ({ ignorefiles := ignorefiles,
                 entries := st.entries ++ [{ path := path, isDir := d.IsDir }] }, .nil)
      | .broke path =>
        let path := if mode = .ModeSyncthing ∧ env.runningOnWindows then StripDriveLetter path
                    else path
        .ok ({ ignorefiles := ignorefiles,
               entries := st.entries ++ [{ path := path, isDir := d.IsDir }] }, .nil)

/-- Go `filepath.Join(path, name)` as `filepath.WalkDir` uses it, for a directory path in
cleaned form: the two parts with one separator between them, none being added after a
directory path that ends in one (the root `/`). -/
def Join (runningOnWindows : Bool) (path name : List Char) : List Char :=
  if HasSuffix path [PathSeparator runningOnWindows] then path ++ name
  else path ++ [PathSeparator runningOnWindows] ++ name

mutual
/-- Go `filepath.walkDir(path, d, fn)` on a readable tree: the callback on the entry itself,
then, unless it is a file or the callback said `SkipDir`, the entries of the directory. -/
def walkDir (w : Bool) (fn : WalkState → List Char → Node → Result (WalkState × Signal))
    (st : WalkState) (path : List Char) : Node → Result (WalkState × Signal)
  | .file name content =>
    fn st path (.file name content)
  | .dir name children =>
    match fn st path (.dir name children) with
    | .ok (st1, .nil) => walkDirEntries w fn st1 path children
    | .ok (st1, .SkipDir) => .ok (st1, .nil)
    | r => r
/-- The loop `for _, d1 := range dirs` of `filepath.walkDir`: a `SkipDir` from an entry ends
the loop, any other error ends the walk. -/
def walkDirEntries (w : Bool) (fn : WalkState → List Char → Node → Result (WalkState × Signal))
    (st : WalkState) (path : List Char) : List Node → Result (WalkState × Signal)
  | [] => .ok (st, .nil)
  | d1 :: rest =>
    match walkDir w fn st (Join w path d1.name) d1 with
    | .ok (st1, .nil) => walkDirEntries w fn st1 path rest
    | .ok (st1, .SkipDir) => .ok (st1, .nil)
    | r => r
end

/-- Go `filepath.WalkDir(root, fn)` on a readable tree whose top node is `rootNode`: a
`SkipDir` that reaches the top is not an error. -/
def WalkDir (w : Bool) (fn : WalkState → List Char → Node → Result (WalkState × Signal))
    (st : WalkState) (root : List Char) (rootNode : Node) : Result WalkState :=
  match walkDir w fn st root rootNode with
  | .ok (st1, _) => .ok st1
  | .error => .error
  | .sliceOutOfRange => .sliceOutOfRange

/-- The test of the inner loop of the serialisation (walk.go line 111): some entry of the
list starts with the path of `e` and has a path separator in what follows. -/
def hasChildren (w : Bool) (all : List entry) (e : entry) : Bool :=
  all.any fun e1 =>
    HasPrefix e1.path e.path && ContainsRune (TrimPrefix e1.path e.path) (PathSeparator w)

/-- The loop labelled `outer` of `Walk` (walk.go lines 105 to 121) over the entries that
remain, `all` being the whole list: the entries whose `String()` is written to the buffer,
in the order of writing. -/
def writeLoop (w : Bool) (all : List entry) : List entry → List entry
  | [] => []
  | e :: rest =>
    if e.isDir && hasChildren w all e then writeLoop w all rest
    else e :: writeLoop w all rest

/-- Go `(*Ifile).Walk(root)` on a readable tree whose top node is `rootNode`: the entries
collected by the callback and the entries written to the buffer, each through its
`String()`. -/
def Walk (env : Env) (mode : Mode) (root : List Char) (rootNode : Node) :
    Result (List entry × List entry) :=
  match addIgnoreIfExists env [] root rootNode.children with
  | .error => .error
  | .sliceOutOfRange => .sliceOutOfRange
  | .ok ignorefiles =>
    match WalkDir env.runningOnWindows (walkFn env mode root)
        { ignorefiles := ignorefiles, entries := [] } root rootNode with
    | .error => .error
    | .sliceOutOfRange => .sliceOutOfRange
    | .ok st => .ok (st.entries, writeLoop env.runningOnWindows st.entries st.entries)

/-! ## The ignore-pattern matcher

`pathspec.FromFile` and `Match` belong to the library `go-pathspec`, which is not part of
this repository.  The general results below hold for every matcher; the scenarios on concrete
trees use the matcher that section 4.1 of the specification describes. -/

/-- Modelled from the spec: a compiled rule of a pattern file (section 4.1: "Each rule
records: negation flag; anchored flag (pattern contained `/` other than at the end, or
started with `/`); directory-only flag (trailing `/`); and a compiled glob"), the glob being
kept as its list of path segments. -/
structure Rule where
  negate : Bool
  anchored : Bool
  dirOnly : Bool
  segments : List (List Char)
deriving DecidableEq, Repr

/-- The pieces of a text between the occurrences of `sep`. -/
def splitOn (sep : Char) : List Char → List (List Char)
  | [] => [[]]
  | c :: cs =>
    match splitOn sep cs with
    | [] => [[c]]
    | seg :: segs => if c = sep then [] :: seg :: segs else (c :: seg) :: segs

/-- Modelled from the spec: the glob of one path segment (section 3: "`*`, `?`, `**`
globbing"): `*` stands for any run of characters of the segment, `?` for one character, any
other character for itself. -/
def globMatch : List Char → List Char → Bool
  | [], s => s.isEmpty
  | '*' :: p, s => s.tails.any fun t => globMatch p t
  | '?' :: p, s =>
    match s with
    | [] => false
    | _ :: t => globMatch p t
  | c :: p, s =>
    match s with
    | [] => false
    | d :: t => c == d && globMatch p t

/-- Modelled from the spec: a list of pattern segments against a list of path segments
(section 4.1: "`**` matches zero or more path segments"). -/
def segmentsMatch : List (List Char) → List (List Char) → Bool
  | [], xs => xs.isEmpty
  | p :: ps, xs =>
    if p = ['*', '*'] then xs.tails.any fun t => segmentsMatch ps t
    else
      match xs with
      | [] => false
      | x :: t => globMatch p x && segmentsMatch ps t

/-- Modelled from the spec: the compilation of one line of a pattern file (section 3: "blank
lines and `#…` skipped; `!` negates; leading `/` anchors to the file's directory; trailing
`/` restricts to directories"). -/
def parseRule (line : List Char) : Option Rule :=
  if line.all (fun c => c == ' ') || line.head? == some '#' then none
  else
    let negate := line.head? == some '!'
    let body := if negate then line.drop 1 else line
    let dirOnly := HasSuffix body ['/']
    let core := if dirOnly then body.dropLast else body
    some { negate := negate
           anchored := core.elem '/'
           dirOnly := dirOnly
           segments := (splitOn '/' core).filter fun seg => !seg.isEmpty }

/-- Modelled from the spec: whether a rule matches a candidate (section 4.1: the candidate is
the path "relative to the rule file's directory with a trailing `/` if the candidate is a
directory"; "Anchored rules match from the start of the relative path; unanchored rules match
against any path suffix aligned on a path separator"; "Matching must accept both `/` and the
host separator in inputs but normalise internally to `/`"). -/
def Rule.applies (w : Bool) (r : Rule) (candidate : List Char) : Bool :=
  let candidate := ToSlash w candidate
  let isDir := HasSuffix candidate ['/']
  let segs := (splitOn '/' candidate).filter fun seg => !seg.isEmpty
  if r.dirOnly && !isDir then false
  else if r.anchored then segmentsMatch r.segments segs
  else segs.tails.any fun t => segmentsMatch r.segments t

/-- Modelled from the spec: the polarity of the last rule that matches the candidate,
`some true` for a plain rule, `some false` for a negated (`!`) rule, and `none` when no rule
matches (section 4.1: "Rules are evaluated in order; the final matching rule's polarity
wins"). -/
def verdict (w : Bool) (rules : List Rule) (candidate : List Char) : Option Bool :=
  rules.foldl (fun acc r => if r.applies w candidate then some (!r.negate) else acc) none

/-- Modelled from the spec: the method `Match` of a compiled pattern file (section 3:
"Evaluation returns a boolean `match` under last-matching-rule wins semantics"; section 4.1:
"no match means not ignored"). -/
def PathSpecMatch (w : Bool) (rules : List Rule) (candidate : List Char) : Bool :=
  verdict w rules candidate == some true

/-- Modelled from the spec: the compilation of a pattern file, line by line (section 4.1:
"Compiles a pattern file into an ordered rule list"). -/
def compile (content : List Char) : List Rule :=
  (splitOn '\n' content).filterMap parseRule

/-- Modelled from the spec: `pathspec.FromFile` on the content of the file; with the glob
grammar of section 3 every line compiles. -/
def FromFile (w : Bool) (content : List Char) : Option (List Char → Bool) :=
  some (PathSpecMatch w (compile content))

/-- The environment of a walk on the given platform with the matcher of section 4.1. -/
def specEnv (w : Bool) : Env :=
  { runningOnWindows := w, FromFile := FromFile w }

/-! ## The trees of the scenarios -/

/-- The content of `documents/.gitignore` in `TestGitignoreToRestic`. -/
def s1Gitignore : List Char := "\n#1\n#2\n\n3\n/5\n/4/6\n\n".toList

/-- The tree that `TestGitignoreToRestic` creates under its base directory: `documents`
with the files `1`, `3`, `5`, `6`, the empty directory `2`, the directory `4` with the files
`1`, `3`, `5`, `6`, and the `.gitignore` above. -/
def s1Tree (baseName : List Char) : Node :=
  .dir baseName [
    .dir "documents".toList [
      .file ".gitignore".toList s1Gitignore,
      .file "1".toList [],
      .dir "2".toList [],
      .file "3".toList [],
      .dir "4".toList [
        .file "1".toList [], .file "3".toList [], .file "5".toList [], .file "6".toList []],
      .file "5".toList [],
      .file "6".toList []]]

/-- The tree `r` with the rule `x` in `r/.gitignore`, and the directory `d` holding the file
`x` and a `.gitignore` with the negated rule `!x`. -/
def negationTree : Node :=
  .dir "r".toList [
    .file ".gitignore".toList "x".toList,
    .dir "d".toList [
      .file ".gitignore".toList "!x".toList,
      .file "x".toList []]]

/-- The tree `r` with the rules `/a` and `c` in `r/.gitignore`, the empty directory `a` and
the directory `ab` holding the file `c`. -/
def siblingTree : Node :=
  .dir "r".toList [
    .file ".gitignore".toList "/a\nc".toList,
    .dir "a".toList [],
    .dir "ab".toList [.file "c".toList []]]

/-- The tree `r` with the directory `a`, whose entries are given, and the directory `ab`
holding the file `x`. -/
def scopeTree (entriesOfA : List Node) : Node :=
  .dir "r".toList [
    .dir "a".toList entriesOfA,
    .dir "ab".toList [.file "x".toList []]]

/-- The paths of the entries that a walk wrote to the buffer; none when the walk failed. -/
def writtenPaths : Result (List entry × List entry) → List (List Char)
  | .ok (_, written) => written.map fun e => e.path
  | _ => []


/-- The ignore file that a walk from `/tmp` loads from `/tmp/documents` in scenario S1. -/
def s1Ignorefile : ignorefile :=
  { p := PathSpecMatch false (compile s1Gitignore), dir := "/tmp/documents".toList }

/-- The ignore file that a walk of `negationTree` from `/r` loads from `/r`. -/
def negationOuter : ignorefile :=
  { p := PathSpecMatch false (compile "x".toList), dir := "/r".toList }

/-- The ignore file that a walk of `negationTree` from `/r` loads from `/r/d`. -/
def negationInner : ignorefile :=
  { p := PathSpecMatch false (compile "!x".toList), dir := "/r/d".toList }

mutual
/-- Every entry below the node has a file name: not empty and without a slash. -/
def Node.wellNamed : Node → Bool
  | .file _ _ => true
  | .dir _ children => entriesWellNamed children
/-- Every node of the list and every entry below it has a file name. -/
def entriesWellNamed : List Node → Bool
  | [] => true
  | d :: rest => (!d.name.isEmpty && !d.name.elem '/') && d.wellNamed && entriesWellNamed rest
end

/-- The callback `fn` behind a check of the path it is called with: the path starts with the
root and, unless it is the root, does not end in a slash. -/
def checked (root : List Char) (fn : WalkState → List Char → Node → Result (WalkState × Signal))
    (st : WalkState) (path : List Char) (d : Node) : Result (WalkState × Signal) :=
  if root <+: path ∧ (path = root ∨ path.getLast? ≠ some '/') then fn st path d else .error

/-! ## Results: the path normaliser -/

/-- C7: `StripDriveLetter` returns its input without the first two characters when the
input has at least two characters and the second one is a colon, and returns the input
unchanged otherwise; the eight inputs of `TestStripDriveLetter` give the eight expected
outputs. -/
theorem StripDriveLetter_spec :
    (∀ p : List Char,
      StripDriveLetter p = if 2 ≤ p.length ∧ p.get? 1 = some ':' then p.drop 2 else p) ∧
    StripDriveLetter "A".toList = "A".toList ∧
    StripDriveLetter ":".toList = ":".toList ∧
    StripDriveLetter ":Z".toList = ":Z".toList ∧
    StripDriveLetter "B:".toList = [] ∧
    StripDriveLetter "C:\\foo".toList = "\\foo".toList ∧
    StripDriveLetter "C:\\foo\\bar".toList = "\\foo\\bar".toList ∧
    StripDriveLetter "D:/foo".toList = "/foo".toList ∧
    StripDriveLetter "D:/foo/bar".toList = "/foo/bar".toList := by
  refine ⟨?_, by decide, by decide, by decide, by decide, by decide, by decide, by decide,
    by decide⟩
  intro p
  match p with
  | [] => simp [StripDriveLetter]
  | [a] => simp [StripDriveLetter]
  | a :: b :: rest =>
    by_cases h : b = ':'
    · subst h; simp [StripDriveLetter]
    · have hkeep : StripDriveLetter (a :: b :: rest) = a :: b :: rest := by
        unfold StripDriveLetter
        split
        · rename_i heq; simp at heq; exact absurd heq.2.1 h
        · rfl
      simp [hkeep, h]

/-- The normaliser changes its input exactly when the second character is a colon. -/
theorem StripDriveLetter_eq_self_iff (q : List Char) :
    StripDriveLetter q = q ↔ q.get? 1 ≠ some ':' := by
  match q with
  | [] => simp [StripDriveLetter]
  | [a] => simp [StripDriveLetter]
  | a :: b :: rest =>
    by_cases h : b = ':'
    · subst h
      have hlen : (StripDriveLetter (a :: ':' :: rest)).length ≠ (a :: ':' :: rest).length := by
        simp only [StripDriveLetter, List.length_cons]; omega
      constructor
      · intro heq; exact absurd (congrArg List.length heq) hlen
      · intro hne; simp at hne
    · have hkeep : StripDriveLetter (a :: b :: rest) = a :: b :: rest := by
        unfold StripDriveLetter
        split
        · rename_i heq; simp at heq; exact absurd heq.2.1 h
        · rfl
      simp [hkeep, h]

/-- C8, as stated, fails: stripping `C:D:/foo` gives `D:/foo`, and stripping that gives
`/foo`. -/
theorem StripDriveLetter_twice_differs :
    StripDriveLetter "C:D:/foo".toList = "D:/foo".toList ∧
    StripDriveLetter (StripDriveLetter "C:D:/foo".toList) = "/foo".toList ∧
    StripDriveLetter (StripDriveLetter "C:D:/foo".toList) ≠
      StripDriveLetter "C:D:/foo".toList := by
  decide

/-- C8, amended: stripping a second time changes nothing exactly when the path stripped once
does not itself have a colon as its second character. -/
theorem StripDriveLetter_idempotent_iff (p : List Char) :
    StripDriveLetter (StripDriveLetter p) = StripDriveLetter p ↔
      (StripDriveLetter p).get? 1 ≠ some ':' :=
  StripDriveLetter_eq_self_iff (StripDriveLetter p)

/-! ## Results: the restic command line -/

/-- C9: for every platform, repository location, extra-argument text and target, the command
composed by `BackupWithIfile` is `restic -r <repo> backup [<extraArgs>] --files-from <ifile>`
and the one composed by `Backup` is `restic -r <repo> backup [<extraArgs>] <path>`, with
single spaces between the parts, nothing inserted for empty extra arguments, and `repo`,
`ifile` and `path` in forward-slash form (every host separator replaced by a slash). -/
theorem restic_command_line (w : Bool) (repoPath extraArgs password : List Char)
    (sudo_ : Bool) (target : List Char) :
    Restic.BackupWithIfile w (NewRestic w repoPath extraArgs password sudo_) target =
      "restic -r ".toList ++ ToSlash w repoPath ++ " backup".toList ++
        (if extraArgs = [] then [] else " ".toList ++ extraArgs) ++
        " --files-from ".toList ++ ToSlash w target ∧
    Restic.Backup w (NewRestic w repoPath extraArgs password sudo_) target =
      "restic -r ".toList ++ ToSlash w repoPath ++ " backup".toList ++
        (if extraArgs = [] then [] else " ".toList ++ extraArgs) ++
        " ".toList ++ ToSlash w target ∧
    (∀ s : List Char,
      ToSlash w s = s.map fun c => if c = PathSeparator w then '/' else c) := by
  refine ⟨?_, ?_, ?_⟩
  · by_cases h : extraArgs = [] <;>
      simp [Restic.BackupWithIfile, NewRestic, h, List.append_assoc]
  · by_cases h : extraArgs = [] <;>
      simp [Restic.Backup, NewRestic, h, List.append_assoc]
  · intro s
    cases w
    · have hid : (fun c : Char => if c = '/' then '/' else c) = id := by
        funext c; by_cases hc : c = '/' <;> simp [hc]
      simp [ToSlash, PathSeparator, hid]
    · have hne : ¬ ('\\' : Char) = '/' := by decide
      simp [ToSlash, PathSeparator, hne]

/-! ## Results: the serialisation loop -/

/-- An entry whose path is the path of `D`, a separator and something more makes the test
of the inner loop succeed for `D`. -/
theorem hasChildren_of_below (w : Bool) (all : List entry) (D e : entry) (rest : List Char)
    (he : e ∈ all) (hpath : e.path = D.path ++ PathSeparator w :: rest) :
    hasChildren w all D = true := by
  unfold hasChildren
  rw [List.any_eq_true]
  refine ⟨e, he, ?_⟩
  have hpre : HasPrefix e.path D.path = true := by
    simp [HasPrefix, hpath]
  have htrim : TrimPrefix e.path D.path = PathSeparator w :: rest := by
    unfold TrimPrefix
    rw [if_pos hpre, hpath]
    simp
  simp [hpre, htrim, ContainsRune]

/-- What the loop writes is part of the list, and a directory it writes failed the test of
the inner loop. -/
theorem mem_writeLoop (w : Bool) (all : List entry) (D : entry) :
    ∀ l : List entry, D ∈ writeLoop w all l →
      D ∈ l ∧ (D.isDir = true → hasChildren w all D = false) := by
  intro l
  induction l with
  | nil => intro h; simp [writeLoop] at h
  | cons e rest ih =>
    intro h
    unfold writeLoop at h
    by_cases hc : (e.isDir && hasChildren w all e) = true
    · rw [if_pos hc] at h
      exact ⟨List.mem_cons_of_mem _ (ih h).1, (ih h).2⟩
    · rw [if_neg hc] at h
      rcases List.mem_cons.mp h with rfl | h
      · refine ⟨List.mem_cons_self _ _, ?_⟩
        intro hd
        simpa [hd] using hc
      · exact ⟨List.mem_cons_of_mem _ (ih h).1, (ih h).2⟩

/-- C5: for every list of entries, the serialisation loop writes no directory entry `D` for
which the list holds an entry whose path is the path of `D`, the path separator and a
non-empty remainder. -/
theorem writeLoop_no_dir_above_entry (w : Bool) (entries : List entry) (D : entry)
    (hD : D ∈ writeLoop w entries entries) (hdir : D.isDir = true) :
    ¬ ∃ e ∈ entries, ∃ rest : List Char,
        rest ≠ [] ∧ e.path = D.path ++ PathSeparator w :: rest := by
  rintro ⟨e, he, rest, _, hpath⟩
  have h1 := (mem_writeLoop w entries D entries hD).2 hdir
  have h2 := hasChildren_of_below w entries D e rest he hpath
  rw [h1] at h2
  exact Bool.noConfusion h2

/-- C5 at the entries `/2` (a directory), `/4` (a directory) and `/4/1`: the directory `/2`
is written and no entry lies below it. -/
theorem writeLoop_no_dir_above_entry_witness :
    (⟨"/2".toList, true⟩ : entry) ∈
        writeLoop false
          [⟨"/2".toList, true⟩, ⟨"/4".toList, true⟩, ⟨"/4/1".toList, false⟩]
          [⟨"/2".toList, true⟩, ⟨"/4".toList, true⟩, ⟨"/4/1".toList, false⟩] ∧
    ¬ ∃ e ∈ ([⟨"/2".toList, true⟩, ⟨"/4".toList, true⟩, ⟨"/4/1".toList, false⟩] : List entry),
        ∃ rest : List Char, rest ≠ [] ∧ e.path = "/2".toList ++ PathSeparator false :: rest :=
  ⟨by decide,
   writeLoop_no_dir_above_entry false
     [⟨"/2".toList, true⟩, ⟨"/4".toList, true⟩, ⟨"/4/1".toList, false⟩]
     ⟨"/2".toList, true⟩ (by decide) rfl⟩

/-- C6 fails on the code: with the rules `/a` and `c`, the empty directory `a` and the file
`ab/c`, the walk in Syncthing mode collects the directory `/a` and the file `/ab/c`; no
collected entry lies below `/a`, yet the loop writes `/ab/c` only, because `/ab/c` starts
with `/a` and has a separator further on. -/
theorem writeLoop_drops_empty_dir_beside_longer_name :
    Walk (specEnv false) .ModeSyncthing "/r".toList siblingTree =
      .ok ([⟨"/a".toList, true⟩, ⟨"/ab/c".toList, false⟩], [⟨"/ab/c".toList, false⟩]) ∧
    writeLoop false [⟨"/a".toList, true⟩, ⟨"/ab/c".toList, false⟩]
      [⟨"/a".toList, true⟩, ⟨"/ab/c".toList, false⟩] = [⟨"/ab/c".toList, false⟩] ∧
    (∀ e ∈ ([⟨"/a".toList, true⟩, ⟨"/ab/c".toList, false⟩] : List entry),
      ¬ HasPrefix e.path "/a/".toList = true) := by
  decide

/-! ## Results: scenario S1 -/

/-- C4, as stated, fails: in Syncthing mode the walk of the tree of scenario S1 writes
`/documents/3`, which the claim excludes, and does not write `/documents/1`, which the claim
expects. -/
theorem s1_syncthing_emits_the_matched :
    "/documents/3".toList ∈
      writtenPaths (Walk (specEnv false) .ModeSyncthing "/tmp".toList (s1Tree "tmp".toList)) ∧
    "/documents/1".toList ∉
      writtenPaths (Walk (specEnv false) .ModeSyncthing "/tmp".toList (s1Tree "tmp".toList)) := by
  decide

/-- C4, amended: in Syncthing mode the walk of the tree of scenario S1 collects and writes
exactly the entries the rules `3`, `/5` and `/4/6` match, `/documents/3`, `/documents/4/3`,
`/documents/4/6` and `/documents/5`; `/documents/.gitignore`, `/documents/1`, `/documents/2`,
`/documents/4/1`, `/documents/4/5` and `/documents/6` are not emitted. -/
theorem s1_syncthing_walk :
    Walk (specEnv false) .ModeSyncthing "/tmp".toList (s1Tree "tmp".toList) =
      .ok ([⟨"/documents/3".toList, false⟩, ⟨"/documents/4/3".toList, false⟩,
            ⟨"/documents/4/6".toList, false⟩, ⟨"/documents/5".toList, false⟩],
           [⟨"/documents/3".toList, false⟩, ⟨"/documents/4/3".toList, false⟩,
            ⟨"/documents/4/6".toList, false⟩, ⟨"/documents/5".toList, false⟩]) := by
  decide

/-! ## Results: the scope of an ignore file -/

/-- C10 fails on the code: the ignore file loaded from `/r/a` is consulted for `/r/ab/x`,
which is neither `/r/a` nor below it, on the text `b/x`, and its answer alone decides whether
the path is emitted; with the rule `x` in `a/.gitignore` the walk emits `/ab/x`, and without
that file it emits nothing. -/
theorem ignorefile_reaches_sibling_with_longer_name :
    (∀ p : List Char → Bool,
      matchLoop .ModeSyncthing "/r".toList "/r/ab/x".toList false [⟨p, "/r/a".toList⟩] =
        if p "b/x".toList then .broke "/ab/x".toList else .done) ∧
    Walk (specEnv false) .ModeSyncthing "/r".toList
        (scopeTree [.file ".gitignore".toList "x".toList]) =
      .ok ([⟨"/ab/x".toList, false⟩], [⟨"/ab/x".toList, false⟩]) ∧
    Walk (specEnv false) .ModeSyncthing "/r".toList (scopeTree []) = .ok ([], []) := by
  refine ⟨?_, by decide, by decide⟩
  intro p
  have h1 : HasPrefix "/r/ab/x".toList "/r/a".toList = true := by decide
  have h2 : trimmed "/r/ab/x".toList "/r/a".toList false = "b/x".toList := by decide
  have h3 : ("/r".toList.length ≤ "/r/ab/x".toList.length) := by decide
  have h4 : List.drop "/r".toList.length "/r/ab/x".toList = "/ab/x".toList := by decide
  unfold matchLoop
  rw [if_pos h1]
  simp only [h2, h4, if_pos h3]
  cases hp : p "b/x".toList <;> simp [matchLoop]

/-! ## Results: negation in an inner ignore file -/

/-- C3, as stated, fails: in `negationTree` the innermost ignore file that applies to
`/r/d/x`, the one of `/r/d`, negates the path (the last of its rules that matches `/x` is
`!x`), the ignore file of `/r` matches it, and the walk in Syncthing mode emits `/d/x`. -/
theorem negation_in_inner_file_does_not_stop_emission :
    verdict false (compile "!x".toList) (trimmed "/r/d/x".toList "/r/d".toList false) =
      some false ∧
    verdict false (compile "x".toList) (trimmed "/r/d/x".toList "/r".toList false) =
      some true ∧
    Walk (specEnv false) .ModeSyncthing "/r".toList negationTree =
      .ok ([⟨"/d/x".toList, false⟩], [⟨"/d/x".toList, false⟩]) := by
  decide

/-! ## Results: one call of the callback -/

/-- In Restic mode the loop over the ignore files ends in a `return` exactly when one of
them applies to the path and matches. -/
theorem matchLoop_restic (root path : List Char) (isDir : Bool) (l : List ignorefile) :
    matchLoop .ModeRestic root path isDir l =
      if l.any (frameMatches path isDir) then .returned (if isDir then .SkipDir else .nil)
      else .done := by
  induction l with
  | nil => simp [matchLoop]
  | cons ig rest ih =>
    simp only [matchLoop, List.any_cons, frameMatches]
    by_cases h1 : HasPrefix path ig.dir = true
    · by_cases h2 : ig.p (trimmed path ig.dir isDir) = true
      · cases isDir <;> simp [h1, h2]
      · simp only [Bool.not_eq_true] at h2
        simp [h1, h2, ih, frameMatches]
    · simp only [Bool.not_eq_true] at h1
      simp [h1, ih, frameMatches]

/-- In Syncthing mode the loop over the ignore files ends in the `break` exactly when one of
them applies to the path and matches. -/
theorem matchLoop_syncthing (root path : List Char) (isDir : Bool) (l : List ignorefile) :
    matchLoop .ModeSyncthing root path isDir l =
      if l.any (frameMatches path isDir) then
        (if root.length ≤ path.length then .broke (path.drop root.length) else .outOfRange)
      else .done := by
  induction l with
  | nil => simp [matchLoop]
  | cons ig rest ih =>
    simp only [matchLoop, List.any_cons, frameMatches]
    by_cases h1 : HasPrefix path ig.dir = true
    · by_cases h2 : ig.p (trimmed path ig.dir isDir) = true
      · simp [h1, h2]
      · simp only [Bool.not_eq_true] at h2
        simp [h1, h2, ih, frameMatches]
    · simp only [Bool.not_eq_true] at h1
      simp [h1, ih, frameMatches]

/-- Whether some element passes a test does not depend on the direction of the scan. -/
theorem any_reverse_eq {α : Type} (f : α → Bool) (l : List α) :
    l.reverse.any f = l.any f := by
  rw [Bool.eq_iff_iff]; simp [List.any_eq_true]

/-- A list with an element passing a test splits at the first such element. -/
theorem any_first {α : Type} (f : α → Bool) (l : List α) (h : l.any f = true) :
    ∃ a x b, l = a ++ x :: b ∧ f x = true ∧ ∀ y ∈ a, f y = false := by
  induction l with
  | nil => simp at h
  | cons x rest ih =>
    by_cases hx : f x = true
    · exact ⟨[], x, rest, rfl, hx, by simp⟩
    · simp only [Bool.not_eq_true] at hx
      simp only [List.any_cons, hx, Bool.false_or] at h
      obtain ⟨a, y, b, hl, hy, ha⟩ := ih h
      refine ⟨x :: a, y, b, by simp [hl], hy, ?_⟩
      intro z hz
      rcases List.mem_cons.mp hz with rfl | hz
      · exact hx
      · exact ha z hz

/-- The callback in Restic mode, for a path other than the root whose ignore files were
loaded. -/
theorem walkFn_restic (env : Env) (root : List Char) (st : WalkState) (path : List Char)
    (d : Node) (igs : List ignorefile) (hroot : path ≠ root)
    (hload : (if d.IsDir then addIgnoreIfExists env st.ignorefiles path d.children
              else .ok st.ignorefiles) = .ok igs) :
    walkFn env .ModeRestic root st path d =
      if igs.any (frameMatches path d.IsDir) then
        .ok ({ ignorefiles := igs, entries := st.entries },
             if d.IsDir then .SkipDir else .nil)
      else
        .ok ({ ignorefiles := igs,
               entries := st.entries ++ [{ path := path, isDir := d.IsDir }] }, .nil) := by
  unfold walkFn
  rw [if_neg hroot, hload]
  simp only [matchLoop_restic, any_reverse_eq]
  by_cases h : igs.any (frameMatches path d.IsDir) = true
  · simp [h]
  · simp only [Bool.not_eq_true] at h
    simp [h]

/-- The callback in Syncthing mode, for a path other than the root whose ignore files were
loaded. -/
theorem walkFn_syncthing (env : Env) (root : List Char) (st : WalkState) (path : List Char)
    (d : Node) (igs : List ignorefile) (hroot : path ≠ root)
    (hload : (if d.IsDir then addIgnoreIfExists env st.ignorefiles path d.children
              else .ok st.ignorefiles) = .ok igs) :
    walkFn env .ModeSyncthing root st path d =
      if igs.any (frameMatches path d.IsDir) then
        if root.length ≤ path.length then
          .ok ({ ignorefiles := igs,
                 entries := st.entries ++
                   [{ path := if env.runningOnWindows then StripDriveLetter (path.drop root.length)
                              else path.drop root.length,
                      isDir := d.IsDir }] }, .nil)
        else .sliceOutOfRange
      else .ok ({ ignorefiles := igs, entries := st.entries }, .nil) := by
  unfold walkFn
  rw [if_neg hroot, hload]
  simp only [matchLoop_syncthing, any_reverse_eq]
  by_cases h : igs.any (frameMatches path d.IsDir) = true
  · by_cases hlen : root.length ≤ path.length
    · cases hw : env.runningOnWindows <;> simp [h, hlen]
    · simp [h, hlen]
  · simp only [Bool.not_eq_true] at h
    simp [h]

/-- A text that does not end in a slash has no remainder ending in a slash. -/
theorem HasSuffix_drop_slash (path : List Char) (n : Nat)
    (hslash : path.getLast? ≠ some '/') : HasSuffix (path.drop n) ['/'] = false := by
  cases h : HasSuffix (path.drop n) ['/'] with
  | false => rfl
  | true =>
    exfalso
    apply hslash
    unfold HasSuffix at h
    rw [List.isSuffixOf_iff_suffix] at h
    obtain ⟨t, ht⟩ := h.trans (List.drop_suffix n path)
    rw [← ht]
    simp

/-- For a path that does not end in a slash, the text handed to the matcher is the remainder
of the path with a slash appended for a directory. -/
theorem trimmed_eq (path dir : List Char) (isDir : Bool)
    (hslash : path.getLast? ≠ some '/') :
    trimmed path dir isDir = path.drop dir.length ++ (if isDir then ['/'] else []) := by
  unfold trimmed
  cases isDir <;> simp [HasSuffix_drop_slash path dir.length hslash]

/-- C2: in Restic mode, for every visited path other than the root, if an applicable ignore
file matches it the callback appends no entry and, for a directory, the walk of that
directory returns with the entries unchanged, its whole subtree skipped; if no applicable
ignore file matches it, an entry with the unmodified path is appended.  On the tree of
`TestGitignoreToRestic` the walk keeps `1`, `2`, `4/1`, `4/5`, `6` and `.gitignore` (with the
directories `documents` and `4` among the collected entries), and `3`, `4/3`, `5` and `4/6`
are absent. -/
theorem restic_visit (env : Env) (root : List Char) (st : WalkState) (path : List Char)
    (d : Node) (igs : List ignorefile) (hroot : path ≠ root)
    (hload : (if d.IsDir then addIgnoreIfExists env st.ignorefiles path d.children
              else .ok st.ignorefiles) = .ok igs) :
    ((∃ ig ∈ igs, frameMatches path d.IsDir ig = true) →
      walkFn env .ModeRestic root st path d =
        .ok ({ ignorefiles := igs, entries := st.entries },
             if d.IsDir then .SkipDir else .nil) ∧
      walkDir env.runningOnWindows (walkFn env .ModeRestic root) st path d =
        .ok ({ ignorefiles := igs, entries := st.entries }, .nil)) ∧
    ((¬ ∃ ig ∈ igs, frameMatches path d.IsDir ig = true) →
      walkFn env .ModeRestic root st path d =
        .ok ({ ignorefiles := igs,
               entries := st.entries ++ [{ path := path, isDir := d.IsDir }] }, .nil)) ∧
    Walk (specEnv false) .ModeRestic "/tmp".toList (s1Tree "tmp".toList) =
      .ok ([⟨"/tmp/documents".toList, true⟩, ⟨"/tmp/documents/.gitignore".toList, false⟩,
            ⟨"/tmp/documents/1".toList, false⟩, ⟨"/tmp/documents/2".toList, true⟩,
            ⟨"/tmp/documents/4".toList, true⟩, ⟨"/tmp/documents/4/1".toList, false⟩,
            ⟨"/tmp/documents/4/5".toList, false⟩, ⟨"/tmp/documents/6".toList, false⟩],
           [⟨"/tmp/documents/.gitignore".toList, false⟩, ⟨"/tmp/documents/1".toList, false⟩,
            ⟨"/tmp/documents/2".toList, true⟩, ⟨"/tmp/documents/4/1".toList, false⟩,
            ⟨"/tmp/documents/4/5".toList, false⟩, ⟨"/tmp/documents/6".toList, false⟩]) := by
  have hfn := walkFn_restic env root st path d igs hroot hload
  refine ⟨?_, ?_, by decide⟩
  · intro hex
    have hany : igs.any (frameMatches path d.IsDir) = true := by
      rw [List.any_eq_true]; exact hex
    rw [if_pos hany] at hfn
    refine ⟨hfn, ?_⟩
    cases d with
    | file name content =>
      have : walkDir env.runningOnWindows (walkFn env .ModeRestic root) st path
          (.file name content) = walkFn env .ModeRestic root st path (.file name content) := by
        simp [walkDir]
      rw [this, hfn]
      simp [Node.IsDir]
    | dir name children =>
      unfold walkDir
      rw [hfn]
      simp [Node.IsDir]
  · intro hex
    have hany : ¬ igs.any (frameMatches path d.IsDir) = true := by
      rw [List.any_eq_true]; exact hex
    rw [if_neg hany] at hfn
    exact hfn

/-- C2 at the visit of the directory `/tmp/documents/4` when an ignore file of
`/tmp/documents` holds the rule `4/`: the walk of the directory returns with no entry added,
none of its four files being visited. -/
theorem restic_visit_witness :
    "/tmp/documents/4".toList ≠ "/tmp".toList ∧
    walkDir false (walkFn (specEnv false) .ModeRestic "/tmp".toList)
        { ignorefiles := [⟨PathSpecMatch false (compile "4/".toList), "/tmp/documents".toList⟩],
          entries := [] }
        "/tmp/documents/4".toList
        (.dir "4".toList [.file "1".toList [], .file "3".toList [], .file "5".toList [],
          .file "6".toList []]) =
      .ok ({ ignorefiles :=
               [⟨PathSpecMatch false (compile "4/".toList), "/tmp/documents".toList⟩],
             entries := [] }, .nil) :=
  ⟨by decide,
   ((restic_visit (specEnv false) "/tmp".toList
      { ignorefiles := [⟨PathSpecMatch false (compile "4/".toList), "/tmp/documents".toList⟩],
        entries := [] }
      "/tmp/documents/4".toList
      (.dir "4".toList [.file "1".toList [], .file "3".toList [], .file "5".toList [],
        .file "6".toList []])
      [⟨PathSpecMatch false (compile "4/".toList), "/tmp/documents".toList⟩]
      (by decide) rfl).1 ⟨_, List.mem_singleton.mpr rfl, by decide⟩).2⟩

/-- The path that `filepath.WalkDir` builds for an entry of a directory below the root starts
with the root and does not end in a slash. -/
theorem Join_visited (w : Bool) (root path name : List Char) (hp : root <+: path)
    (hne : name.isEmpty = false) (hs : name.elem '/' = false) :
    root <+: Join w path name ∧ (Join w path name).getLast? ≠ some '/' := by
  obtain ⟨c, t, rfl⟩ : ∃ c t, name = t ++ [c] := by
    rcases List.eq_nil_or_concat name with h | ⟨t, c, h⟩
    · subst h; simp at hne
    · exact ⟨c, t, by simpa using h⟩
  have hc : c ≠ '/' := by
    intro h; subst h; simp at hs
  unfold Join
  split
  · refine ⟨hp.trans (List.prefix_append _ _), ?_⟩
    rw [← List.append_assoc, List.getLast?_append]
    simpa using hc
  · refine ⟨hp.trans ?_, ?_⟩
    · rw [List.append_assoc]; exact List.prefix_append _ _
    · rw [← List.append_assoc, List.getLast?_append]
      simpa using hc

mutual
/-- On a tree whose entries have file names, every call of the callback made by `walkDir`
passes the check: the walk behind the check is the walk itself, whatever the callback. -/
theorem walkDir_checked (w : Bool) (root : List Char)
    (fn : WalkState → List Char → Node → Result (WalkState × Signal)) :
    ∀ (d : Node) (st : WalkState) (path : List Char), d.wellNamed = true →
      root <+: path → (path = root ∨ path.getLast? ≠ some '/') →
      walkDir w (checked root fn) st path d = walkDir w fn st path d
  | .file name content, st, path, _, hp, hq => by
    simp [walkDir, checked, hp, hq]
  | .dir name children, st, path, hwf, hp, hq => by
    have hwf1 : entriesWellNamed children = true := by simpa [Node.wellNamed] using hwf
    have hfn : checked root fn st path (.dir name children) = fn st path (.dir name children) := by
      simp [checked, hp, hq]
    unfold walkDir
    rw [hfn]
    cases hres : fn st path (.dir name children) with
    | error => rfl
    | sliceOutOfRange => rfl
    | ok r =>
      obtain ⟨st1, s⟩ := r
      cases s with
      | SkipDir => rfl
      | nil => exact walkDirEntries_checked w root fn children st1 path hwf1 hp
/-- The same for the loop over the entries of a directory. -/
theorem walkDirEntries_checked (w : Bool) (root : List Char)
    (fn : WalkState → List Char → Node → Result (WalkState × Signal)) :
    ∀ (l : List Node) (st : WalkState) (path : List Char), entriesWellNamed l = true →
      root <+: path →
      walkDirEntries w (checked root fn) st path l = walkDirEntries w fn st path l
  | [], st, path, _, _ => by simp [walkDirEntries]
  | d1 :: rest, st, path, hwf, hp => by
    simp only [entriesWellNamed, Bool.and_eq_true, Bool.not_eq_true'] at hwf
    obtain ⟨⟨⟨hne, hs⟩, hd⟩, hrest⟩ := hwf
    have hj := Join_visited w root path d1.name hp hne hs
    unfold walkDirEntries
    rw [walkDir_checked w root fn d1 st (Join w path d1.name) hd hj.1 (Or.inr hj.2)]
    cases hres : walkDir w fn st (Join w path d1.name) d1 with
    | error => rfl
    | sliceOutOfRange => rfl
    | ok r =>
      obtain ⟨st1, s⟩ := r
      cases s with
      | SkipDir => rfl
      | nil => exact walkDirEntries_checked w root fn rest st1 path hrest hp
end

/-- On a tree whose entries have file names, `filepath.WalkDir` calls the callback only with
paths that start with the root and, the root apart, do not end in a slash. -/
theorem WalkDir_checked (w : Bool) (root : List Char)
    (fn : WalkState → List Char → Node → Result (WalkState × Signal)) (st : WalkState)
    (rootNode : Node) (hwf : rootNode.wellNamed = true) :
    WalkDir w (checked root fn) st root rootNode = WalkDir w fn st root rootNode := by
  unfold WalkDir
  rw [walkDir_checked w root fn rootNode st root hwf (List.prefix_refl root) (Or.inl rfl)]

/-- C1: in Syncthing mode, for every visited path other than the root (a path that starts
with the root and does not end in a slash, as `filepath.WalkDir` builds them, see
`WalkDir_checked`; on Windows one whose remainder holds no drive letter to strip), the
callback appends an entry exactly when
some ignore file on the stack whose directory is a prefix of the path reports a match on the
remainder of the path after that directory, with a slash appended for a directory; without
such a match nothing is appended, and with one the appended entry carries the path without
the root prefix and the directory flag of the visited entry. -/
theorem syncthing_visit (env : Env) (root : List Char) (st : WalkState) (path : List Char)
    (d : Node) (igs : List ignorefile) (hroot : path ≠ root)
    (hload : (if d.IsDir then addIgnoreIfExists env st.ignorefiles path d.children
              else .ok st.ignorefiles) = .ok igs)
    (hpre : root <+: path) (hslash : path.getLast? ≠ some '/')
    (hwin : env.runningOnWindows = true →
      StripDriveLetter (path.drop root.length) = path.drop root.length) :
    ((∃ ig ∈ igs, ig.dir <+: path ∧
          ig.p (path.drop ig.dir.length ++ (if d.IsDir then ['/'] else [])) = true) ↔
      ∃ e, walkFn env .ModeSyncthing root st path d =
        .ok ({ ignorefiles := igs, entries := st.entries ++ [e] }, .nil)) ∧
    ((¬ ∃ ig ∈ igs, ig.dir <+: path ∧
          ig.p (path.drop ig.dir.length ++ (if d.IsDir then ['/'] else [])) = true) →
      walkFn env .ModeSyncthing root st path d =
        .ok ({ ignorefiles := igs, entries := st.entries }, .nil)) ∧
    ((∃ ig ∈ igs, ig.dir <+: path ∧
          ig.p (path.drop ig.dir.length ++ (if d.IsDir then ['/'] else [])) = true) →
      walkFn env .ModeSyncthing root st path d =
        .ok ({ ignorefiles := igs,
               entries := st.entries ++
                 [{ path := path.drop root.length, isDir := d.IsDir }] }, .nil) ∧
      root ++ path.drop root.length = path) := by
  have hfn := walkFn_syncthing env root st path d igs hroot hload
  have hlen : root.length ≤ path.length := hpre.length_le
  have hstrip : (if env.runningOnWindows = true then StripDriveLetter (path.drop root.length)
      else path.drop root.length) = path.drop root.length := by
    by_cases hw : env.runningOnWindows = true
    · rw [if_pos hw]; exact hwin hw
    · rw [if_neg hw]
  rw [if_pos hlen, hstrip] at hfn
  have hiff : (∃ ig ∈ igs, ig.dir <+: path ∧
      ig.p (path.drop ig.dir.length ++ (if d.IsDir then ['/'] else [])) = true) ↔
      igs.any (frameMatches path d.IsDir) = true := by
    rw [List.any_eq_true]
    constructor
    · rintro ⟨ig, hmem, hp, hm⟩
      refine ⟨ig, hmem, ?_⟩
      unfold frameMatches HasPrefix
      rw [trimmed_eq path ig.dir d.IsDir hslash, List.isPrefixOf_iff_prefix.mpr hp, hm]
      rfl
    · rintro ⟨ig, hmem, hf⟩
      unfold frameMatches HasPrefix at hf
      rw [trimmed_eq path ig.dir d.IsDir hslash, Bool.and_eq_true] at hf
      exact ⟨ig, hmem, List.isPrefixOf_iff_prefix.mp hf.1, hf.2⟩
  have hyes : igs.any (frameMatches path d.IsDir) = true →
      walkFn env .ModeSyncthing root st path d =
        .ok ({ ignorefiles := igs,
               entries := st.entries ++
                 [{ path := path.drop root.length, isDir := d.IsDir }] }, .nil) := by
    intro hany; rw [if_pos hany] at hfn; exact hfn
  have hno : ¬ igs.any (frameMatches path d.IsDir) = true →
      walkFn env .ModeSyncthing root st path d =
        .ok ({ ignorefiles := igs, entries := st.entries }, .nil) := by
    intro hany; rw [if_neg hany] at hfn; exact hfn
  refine ⟨⟨?_, ?_⟩, ?_, ?_⟩
  · intro hex
    exact ⟨_, hyes (hiff.mp hex)⟩
  · rintro ⟨e, he⟩
    by_contra hex
    rw [hno (fun h => hex (hiff.mpr h))] at he
    have hent : st.entries = st.entries ++ [e] := by
      injection he with he
      injection he with he _
      injection he with _ he
    have := congrArg List.length hent
    simp at this
  · intro hex
    exact hno (fun h => hex (hiff.mpr h))
  · intro hex
    refine ⟨hyes (hiff.mp hex), ?_⟩
    obtain ⟨t, ht⟩ := hpre
    rw [← ht]
    simp

/-- C1 at the visit of the file `/tmp/documents/4/3` of scenario S1, with the ignore file of
`/tmp/documents` on the stack: the entry `/documents/4/3` is appended. -/
theorem syncthing_visit_witness :
    "/tmp/documents/4/3".toList ≠ "/tmp".toList ∧
    "/tmp".toList <+: "/tmp/documents/4/3".toList ∧
    "/tmp/documents/4/3".toList.getLast? ≠ some '/' ∧
    walkFn (specEnv false) .ModeSyncthing "/tmp".toList
        { ignorefiles := [s1Ignorefile], entries := [] } "/tmp/documents/4/3".toList
        (.file "3".toList []) =
      .ok ({ ignorefiles := [s1Ignorefile],
             entries := [] ++ [{ path := "/tmp/documents/4/3".toList.drop "/tmp".toList.length,
                                 isDir := false }] }, .nil) :=
  ⟨by decide, by decide, by decide,
   ((syncthing_visit (specEnv false) "/tmp".toList
      { ignorefiles := [s1Ignorefile], entries := [] } "/tmp/documents/4/3".toList
      (.file "3".toList []) [s1Ignorefile] (by decide) rfl (by decide) (by decide)
      (fun h => Bool.noConfusion h)).2.2
        ⟨s1Ignorefile, List.mem_singleton.mpr rfl, by decide, by decide⟩).1⟩

/-! ## Results: which ignore file decides -/

/-- C3, amended: in Syncthing mode, whenever the callback emits a path, some ignore file on
the stack applies to the path and reports a match, and every ignore file pushed later than
that one either does not apply to the path or reports no match; the matcher answers with a
boolean only, so a negation rule in an inner ignore file counts as no match and the walk
goes on to the outer ignore files. -/
theorem syncthing_emitted_by_innermost_match (env : Env) (root : List Char) (st : WalkState)
    (path : List Char) (d : Node) (igs : List ignorefile) (e : entry) (hroot : path ≠ root)
    (hload : (if d.IsDir then addIgnoreIfExists env st.ignorefiles path d.children
              else .ok st.ignorefiles) = .ok igs)
    (hemit : walkFn env .ModeSyncthing root st path d =
      .ok ({ ignorefiles := igs, entries := st.entries ++ [e] }, .nil)) :
    ∃ outer ig inner, igs = outer ++ ig :: inner ∧
      (HasPrefix path ig.dir = true ∧ ig.p (trimmed path ig.dir d.IsDir) = true) ∧
      ∀ ig1 ∈ inner,
        ¬ (HasPrefix path ig1.dir = true ∧ ig1.p (trimmed path ig1.dir d.IsDir) = true) := by
  have hfn := walkFn_syncthing env root st path d igs hroot hload
  by_cases hany : igs.any (frameMatches path d.IsDir) = true
  · rw [← any_reverse_eq] at hany
    obtain ⟨a, x, b, hl, hx, ha⟩ := any_first _ _ hany
    refine ⟨b.reverse, x, a.reverse, ?_, ?_, ?_⟩
    · have := congrArg List.reverse hl
      simpa using this
    · simpa [frameMatches] using hx
    · intro ig1 hmem
      have := ha ig1 (List.mem_reverse.mp hmem)
      simpa [frameMatches] using this
  · exfalso
    rw [if_neg hany, hemit] at hfn
    have hent : st.entries ++ [e] = st.entries := by
      injection hfn with hfn
      injection hfn with hfn _
      injection hfn with _ hfn
    have := congrArg List.length hent
    simp at this

/-- C3, amended, at the visit of `/r/d/x` in `negationTree`: the path is emitted, and the
stack splits as the theorem says. -/
theorem syncthing_emitted_by_innermost_match_witness :
    "/r/d/x".toList ≠ "/r".toList ∧
    ∃ outer ig inner, [negationOuter, negationInner] = outer ++ ig :: inner ∧
      (HasPrefix "/r/d/x".toList ig.dir = true ∧
        ig.p (trimmed "/r/d/x".toList ig.dir false) = true) ∧
      ∀ ig1 ∈ inner,
        ¬ (HasPrefix "/r/d/x".toList ig1.dir = true ∧
          ig1.p (trimmed "/r/d/x".toList ig1.dir false) = true) :=
  ⟨by decide,
   syncthing_emitted_by_innermost_match (specEnv false) "/r".toList
     { ignorefiles := [negationOuter, negationInner], entries := [] } "/r/d/x".toList
     (.file "x".toList []) [negationOuter, negationInner] ⟨"/d/x".toList, false⟩
     (by decide) rfl rfl⟩

end Kopyaship
